import Mathlib

/-!
Verification of the podrefresh digest-resolution and pod-refresh pipeline.

Strings that the program inspects character by character (image references,
image IDs, secret names) are modelled as `List Char`; strings the program
only compares for equality (names, namespaces, kinds, phases) use the same
type for uniformity.  Go's `strings.Split`, `strings.LastIndex` and slicing
are embedded as total functions on `List Char`; out-of-bounds indexing,
which panics in Go, is embedded as the `none` branch of an `Option` (or a
dedicated error constructor where the surrounding code must react to it).
-/

abbrev Str := List Char

deriving instance DecidableEq for Except

namespace Podrefresh

/-- Embedding of Go `strings.Split(s, ":")` for a one-character separator:
`splitOnAux` accumulates the current field (reversed) and emits it at each
separator; the final field is emitted at the end of the string. -/
def splitOnAux (c : Char) : Str → Str → List Str
  | [], acc => [acc.reverse]
  | x :: xs, acc =>
    if x = c then acc.reverse :: splitOnAux c xs []
    else splitOnAux c xs (x :: acc)

/-- Embedding of Go `strings.Split(s, sep)` with a single-character `sep`. -/
def splitOnChar (c : Char) (s : Str) : List Str :=
  splitOnAux c s []

/-- Embedding of Go `strings.LastIndex(s, ":")` for a one-character needle:
index of the last occurrence of `c` in `s`, or `none` (Go: `-1`). -/
def lastIndexOfChar (c : Char) : Str → Option Nat
  | [] => none
  | x :: xs =>
    match lastIndexOfChar c xs with
    | some i => some (i + 1)
    | none => if x = c then some 0 else none

/-- `getImageWithoutTag` from repo.go: if the image string contains a `:`,
keep the part strictly before the last `:`; otherwise return it unchanged. -/
def getImageWithoutTag (image : Str) : Str :=
  match lastIndexOfChar ':' image with
  | some lastColon => image.take lastColon
  | none => image

/-- The current-digest extraction of main.go,
`strings.Split(status.ImageID, ":")[1]`, as a total function: `none` is the
out-of-bounds branch (a panic in Go). -/
def currentHashOf (imageID : Str) : Option Str :=
  (splitOnChar ':' imageID).get? 1

/-! ## Pod scan and decision pipeline (main.go `_main`) -/

/-- `corev1.Container`: the fields of the pod spec the pipeline reads. -/
structure ContainerSpec where
  name : Str
  image : Str
  imagePullPolicy : Str
deriving DecidableEq

/-- `corev1.ContainerStatus`: the fields of the container status the
pipeline reads. -/
structure ContainerStatus where
  name : Str
  image : Str
  imageID : Str
deriving DecidableEq

/-- `metav1.OwnerReference`: only the kind is consulted. -/
structure OwnerReference where
  kind : Str
deriving DecidableEq

/-- `corev1.Pod`, restricted to the fields `_main` reads.  `ns` stands for
the pod's namespace (a Lean keyword).  `imagePullSecrets` keeps only the
secret names (`corev1.LocalObjectReference.Name`). -/
structure Pod where
  ns : Str
  name : Str
  phase : Str
  ownerReferences : List OwnerReference
  containers : List ContainerSpec
  containerStatuses : List ContainerStatus
  imagePullSecrets : List Str
deriving DecidableEq

/-- `PodInfo` from main.go: a pod queued for deletion. -/
structure PodInfo where
  ns : Str
  name : Str
deriving DecidableEq

/-- `allowedOwnerKinds` from main.go. -/
def allowedOwnerKinds (kind : Str) : Bool :=
  kind = "ReplicaSet".toList || kind = "DaemonSet".toList ||
    kind = "StatefulSet".toList

/-- The `containerAlwaysPull` map of main.go, as the list of names of
containers whose `imagePullPolicy` is `Always`. -/
def alwaysPullNames (pod : Pod) : List Str :=
  (pod.containers.filter (fun c => c.imagePullPolicy = "Always".toList)).map
    (fun c => c.name)

/-- Errors a per-container goroutine can produce.  `needUpdate` is the
sentinel `NeedUpdateErr`; `indexPanic` is the error branch of the total
embedding of `strings.Split(status.ImageID, ":")[1]`, a panic in Go. -/
inductive CErr
  | needUpdate
  | indexPanic
deriving DecidableEq

/-- Outcome of one registry digest fetch (`repo.GetImageDigest`), supplied
as an oracle: the network, registry and cache behaviour behind it is out of
the pipeline's control. -/
abbrev FetchResult := Except Unit Str

/-- The digest-fetch oracle: image, namespace, pull-secret names ↦ result. -/
structure Env where
  getImageDigest : Str → Str → List Str → FetchResult

/-- The body of one per-container goroutine in main.go: a failed digest
fetch is logged and yields no signal (`none`); then the current digest is
extracted from the image ID (panicking — `indexPanic` — when the split has
no second element) and compared with the registry's digest, a mismatch
raising the `NeedUpdateErr` sentinel. -/
def containerCheck (digestResult : FetchResult) (imageID : Str) : Option CErr :=
  match digestResult with
  | .error _ => none
  | .ok latestHash =>
    match currentHashOf imageID with
    | none => some .indexPanic
    | some currentHash =>
      if currentHash ≠ latestHash then some .needUpdate else none

/-- `feg.Wait()`: the first non-nil error among the joined goroutines.  The
real completion order is scheduler-chosen; we use list order, which is
faithful for every property proved below because their hypotheses allow at
most one kind of non-nil result. -/
def fegWait (rs : List (Option CErr)) : Option CErr :=
  rs.findSome? id

/-- The per-pod task spawned with `eg.Go` in main.go, given the set of
always-pull container names: run `containerCheck` for every always-pull
container status, join them, and append the pod (return `some PodInfo`)
exactly when the joined error is the `NeedUpdateErr` sentinel; a non-sentinel
error fails the task. -/
def podTask (env : Env) (pod : Pod) (alwaysPull : List Str) :
    Except CErr (Option PodInfo) :=
  let rs :=
    (pod.containerStatuses.filter (fun st => alwaysPull.contains st.name)).map
      (fun st =>
        containerCheck (env.getImageDigest st.image pod.ns pod.imagePullSecrets)
          st.imageID)
  match fegWait rs with
  | none => .ok none
  | some .needUpdate => .ok (some ⟨pod.ns, pod.name⟩)
  | some e => .error e

/-- The filter chain of main.go's consumer loop followed by the pod task:
skip non-Running pods, pods without owner references, pods whose first owner
kind is not allowed, and pods with no always-pull container. -/
def processPod (env : Env) (pod : Pod) : Except CErr (Option PodInfo) :=
  if pod.phase ≠ "Running".toList then .ok none
  else
    match pod.ownerReferences with
    | [] => .ok none
    | owner :: _ =>
      if ¬ allowedOwnerKinds owner.kind then .ok none
      else if (alwaysPullNames pod).isEmpty then .ok none
      else podTask env pod (alwaysPullNames pod)

/-- The deletion sequence `toBeDeleted` accumulated over the scan: every
pod's task contributes its decision; a task that fails contributes nothing
(its error only reaches the logged `eg.Wait`). -/
def scanPods (env : Env) (pods : List Pod) : List PodInfo :=
  pods.filterMap (fun pod =>
    match processPod env pod with
    | .ok d => d
    | .error _ => none)

/-! ## Docker config secrets (repo.go `fetchSecret`, `parseDockerConfigJson`) -/

/-- `DockerAuth` from repo.go. -/
structure DockerAuth where
  username : Str
  password : Str
deriving DecidableEq

/-- `DockerAuths = map[string]*DockerAuth`: an association list from registry
host to a possibly-nil (`none`, from JSON `null`) auth pointer. -/
abbrev DockerAuths := List (Str × Option DockerAuth)

/-- Go map lookup `auths[registry]`: the value of the last binding of the
key (later JSON keys overwrite earlier ones when decoding into a map). -/
def lookupHost (auths : DockerAuths) (registry : Str) : Option (Option DockerAuth) :=
  (auths.reverse.find? (fun p => p.fst = registry)).map (fun p => p.snd)

/-- `DockerConfig` from repo.go: the decoded `.dockerconfigjson` payload. -/
structure DockerConfig where
  auths : DockerAuths
deriving DecidableEq

/-- JSON values, for embedding `encoding/json` decoding of `DockerConfig`. -/
inductive Jsonv
  | null
  | bool (b : Bool)
  | num (n : Int)
  | str (s : Str)
  | arr (elems : List Jsonv)
  | obj (fields : List (Str × Jsonv))

/-- Decoding one JSON object value into a `string` field of `DockerAuth`:
`encoding/json` accepts a string (or `null`, keeping the zero value) and
rejects every other shape. -/
def decodeStringField (v : Jsonv) : Except Unit Str :=
  match v with
  | .str s => .ok s
  | .null => .ok []
  | _ => .error ()

/-- Decoding a JSON value into `DockerAuth` (a struct with `username` and
`password` string fields): must be an object or `null`; unknown fields are
ignored; later duplicate keys overwrite earlier ones. -/
def decodeDockerAuth (v : Jsonv) : Except Unit DockerAuth :=
  match v with
  | .null => .ok ⟨[], []⟩
  | .obj fields =>
    fields.foldlM
      (fun acc field =>
        if field.fst = "username".toList then
          (decodeStringField field.snd).map (fun s => { acc with username := s })
        else if field.fst = "password".toList then
          (decodeStringField field.snd).map (fun s => { acc with password := s })
        else .ok acc)
      ⟨[], []⟩
  | _ => .error ()

/-- Decoding a JSON value into `DockerAuths = map[string]*DockerAuth`: must
be an object or `null`; each value decodes through `*DockerAuth`, where JSON
`null` yields a nil pointer (`none`). -/
def decodeDockerAuths (v : Jsonv) : Except Unit DockerAuths :=
  match v with
  | .null => .ok []
  | .obj fields =>
    fields.mapM (fun field =>
      match field.snd with
      | .null => .ok (field.fst, none)
      | w => (decodeDockerAuth w).map (fun a => (field.fst, some a)))
  | _ => .error ()

/-- Decoding a JSON value into `DockerConfig`: must be an object or `null`;
only the `auths` field is read, the rest are ignored. -/
def decodeDockerConfig (v : Jsonv) : Except Unit DockerConfig :=
  match v with
  | .null => .ok ⟨[]⟩
  | .obj fields =>
    fields.foldlM
      (fun acc field =>
        if field.fst = "auths".toList then
          (decodeDockerAuths field.snd).map (fun a => { acc with auths := a })
        else .ok acc)
      ⟨[]⟩
  | _ => .error ()

/-- A raw `.dockerconfigjson` payload: either syntactically well-formed JSON
(carrying its parse tree) or malformed bytes. -/
inductive Payload
  | wellFormed (v : Jsonv)
  | malformed

/-- `parseDockerConfigJson` from repo.go: `json.Unmarshal` of the payload
into `DockerConfig` — a syntax error or a shape mismatch is an error. -/
def parseDockerConfigJson (data : Payload) : Except Unit DockerConfig :=
  match data with
  | .malformed => .error ()
  | .wellFormed v => decodeDockerConfig v

/-- `corev1.DockerConfigJsonKey`. -/
def dockerConfigJsonKey : Str := ".dockerconfigjson".toList

/-- A cluster `corev1.Secret`, restricted to its `Data` map. -/
structure Secret where
  data : List (Str × Payload)

/-- Go map lookup in `secret.Data` (last binding wins). -/
def lookupData (secret : Secret) (key : Str) : Option Payload :=
  (secret.data.reverse.find? (fun p => p.fst = key)).map (fun p => p.snd)

/-- Errors of the secret fetch path. -/
inductive SecretErr
  | getFailed
  | notDockerConfigSecret
  | malformedDockerConfig
  | splitPanic
deriving DecidableEq

/-- The cluster's secret store, an oracle for
`clientset.CoreV1().Secrets(ns).Get(name)`: `none` is a failed Get. -/
structure Cluster where
  getSecret : Str → Str → Option Secret

/-- Go `strings.SplitN(name, "/", 2)` followed by indexing `[0]` and `[1]`:
the part before the first `/` and the rest; `none` for the second component
(an index panic in Go) when the string has no `/`. -/
def splitN2 (c : Char) : Str → Str × Option Str
  | [] => ([], none)
  | x :: xs =>
    if x = c then ([], some xs)
    else
      let r := splitN2 c xs
      (x :: r.fst, r.snd)

/-- `fetchSecret` from repo.go: split the `namespace/name` cache key, get the
secret from the cluster, require the `.dockerconfigjson` data key, parse the
payload, and return the parsed `Auths` map. -/
def fetchSecret (cluster : Cluster) (name : Str) : Except SecretErr DockerAuths :=
  let splitted := splitN2 '/' name
  match splitted.snd with
  | none => .error .splitPanic
  | some secretName =>
    match cluster.getSecret splitted.fst secretName with
    | none => .error .getFailed
    | some secret =>
      match lookupData secret dockerConfigJsonKey with
      | none => .error .notDockerConfigSecret
      | some data =>
        match parseDockerConfigJson data with
        | .error _ => .error .malformedDockerConfig
        | .ok config => .ok config.auths

/-! ## Registry authentication resolver (repo.go `Resolve`)

`Resolve` launches one goroutine per associated pull secret inside an
`errgroup.Group`; `eg.Wait()` keeps the error of the FIRST goroutine to
return a non-nil error, in scheduler-chosen completion order.  The embedding
therefore computes the multiset of per-secret outcomes from the code and
takes the join over an explicit completion `order`, quantified (or
exhibited) in the theorems as a permutation of those outcomes. -/

/-- `PullSecretInfo` from repo.go. -/
structure PullSecretInfo where
  ns : Str
  secrets : List Str
deriving DecidableEq

/-- The non-nil returns a per-secret goroutine can produce: a secret-fetch
error, or the `foundSecret` sentinel carrying the (possibly nil) auth
pointer `auths[registry]`. -/
inductive GoroutineErr
  | loadErr (e : SecretErr)
  | foundSecret (auth : Option DockerAuth)
deriving DecidableEq

/-- `authn.Authenticator`, restricted to the two shapes `Resolve` returns. -/
inductive Authenticator
  | anonymous
  | basic (username password : Str)
deriving DecidableEq

/-- Errors of `Resolve`: a propagated secret-fetch error, or the nil-pointer
dereference `found.auth.Username` when the matching auth entry was JSON
`null` (a panic in Go, the error branch of the total embedding). -/
inductive ResolveErr
  | loadErr (e : SecretErr)
  | nilAuthPanic
deriving DecidableEq

/-- The body of one per-secret goroutine in `Resolve`: load the secret's
auths through the secret fetcher under the key `namespace/name`, propagate a
load error, return the `foundSecret` sentinel when the auths contain the
target registry host, and nil otherwise. -/
def secretOutcome (cluster : Cluster) (registry : Str) (ns secretName : Str) :
    Option GoroutineErr :=
  match fetchSecret cluster (ns ++ '/' :: secretName) with
  | .error e => some (.loadErr e)
  | .ok auths =>
    match lookupHost auths registry with
    | some auth => some (.foundSecret auth)
    | none => none

/-- The outcomes of all per-secret goroutines of one `Resolve` call, in
association order. -/
def secretOutcomes (cluster : Cluster) (registry : Str) (info : PullSecretInfo) :
    List (Option GoroutineErr) :=
  info.secrets.map (fun s => secretOutcome cluster registry info.ns s)

/-- The side table `r.pullSecrets`: RepositoryKey ↦ association. -/
abbrev PullSecretTable := Str → Option PullSecretInfo

/-- `Resolve` from repo.go, for one scheduler-chosen completion `order` of
the per-secret goroutines: no association for the repository string means
anonymous; otherwise join the goroutines (`eg.Wait()` keeps the first
non-nil element of `order`), returning anonymous when all were nil, the
basic credential when the first error is the `foundSecret` sentinel, and
propagating the first error otherwise. -/
def resolveWithOrder (table : PullSecretTable) (repo : Str)
    (order : List (Option GoroutineErr)) : Except ResolveErr Authenticator :=
  match table repo with
  | none => .ok .anonymous
  | some _info =>
    match order.findSome? id with
    | none => .ok .anonymous
    | some (.foundSecret (some auth)) => .ok (.basic auth.username auth.password)
    | some (.foundSecret none) => .error .nilAuthPanic
    | some (.loadErr e) => .error (.loadErr e)

/-- A completion order of `Resolve`'s goroutines is legitimate exactly when
it is a permutation of the per-secret outcomes of the association found in
the table. -/
def LegitOrder (cluster : Cluster) (table : PullSecretTable)
    (repo registry : Str) (order : List (Option GoroutineErr)) : Prop :=
  ∀ info, table repo = some info →
    order.Perm (secretOutcomes cluster registry info)

/-! ## Digest resolution engine (repo.go `GetImageDigest`) -/

/-- The side-table write of `GetImageDigest`: when the pod carries pull
secrets, store (overwrite) the association under the image's RepositoryKey
`getImageWithoutTag image`; then the digest is loaded from the single-flight
digest cache. -/
def storePullSecrets (table : PullSecretTable) (image : Str) (ns : Str)
    (secrets : List Str) : PullSecretTable :=
  if secrets.isEmpty then table
  else fun key =>
    if key = getImageWithoutTag image then some ⟨ns, secrets⟩ else table key

/-- Modelled from the spec: a structured image reference as produced by the
registry client's reference parser (`name.ParseReference`, outside this
repository) — a registry host, a repository path and an optional tag; the
resource handed to the authentication resolver exposes the repository
string `host ++ "/" ++ path` (§4.3 of the spec: "parse image into a
structured reference (registry host, repository path, tag/digest)"). -/
structure ImageRef where
  host : Str
  path : Str
  tag : Option Str
deriving DecidableEq

/-- The textual image reference a pod spec carries for a structured
reference: `host/path` with `:tag` appended when a tag is present. -/
def renderImage (ref : ImageRef) : Str :=
  ref.host ++ '/' :: ref.path ++
    (match ref.tag with
     | some t => ':' :: t
     | none => [])

/-- Modelled from the spec: `res.String()`, the full repository string of
the resource the registry client hands to `Resolve` — registry host and
repository path, never a tag. -/
def repoString (ref : ImageRef) : Str :=
  ref.host ++ '/' :: ref.path

/-! ## Single-flight memoizing cache

Modelled from the spec: the `loader.Loader` used for the secret and digest
caches comes from the external cache-loader dependency, whose sources are
not part of this repository.  Section 4.1 of the spec describes it as an
event system: a `Load(k)` either hits the cache, joins the in-flight fetch
for `k`, or — exactly when neither exists — starts a fresh fetch; a
completing fetch delivers its result (success or failure) to every joined
waiter and caches only successes.  Callers are identified by `Nat` ids; the
fetch result delivered to a caller is recorded in `results`. -/

/-- State of the single-flight cache: cached successes, the waiters of the
in-flight fetch per key (`none` = no fetch in flight), how many fetches have
been started per key, and the result each caller has received so far. -/
structure SFState (κ ν : Type) where
  cache : κ → Option ν
  inflight : κ → Option (List Nat)
  fetchCount : κ → Nat
  results : Nat → Option (Except Unit ν)

/-- The cache's events: a caller issues `Load k`, or the in-flight fetch for
`k` completes with result `r`. -/
inductive SFEvent (κ ν : Type)
  | load (k : κ) (caller : Nat)
  | complete (k : κ) (r : Except Unit ν)

/-- Initial state: empty cache, nothing in flight, no fetches, no results. -/
def SFState.init (κ ν : Type) : SFState κ ν :=
  ⟨fun _ => none, fun _ => none, fun _ => 0, fun _ => none⟩

/-- One step of the single-flight cache. -/
def sfStep {κ ν : Type} [DecidableEq κ] (s : SFState κ ν) :
    SFEvent κ ν → SFState κ ν
  | .load k c =>
    match s.cache k with
    | some v => { s with results := fun c2 => if c2 = c then some (.ok v) else s.results c2 }
    | none =>
      match s.inflight k with
      | some ws =>
        { s with inflight := fun k2 => if k2 = k then some (c :: ws) else s.inflight k2 }
      | none =>
        { s with
          inflight := fun k2 => if k2 = k then some [c] else s.inflight k2,
          fetchCount := fun k2 => if k2 = k then s.fetchCount k2 + 1 else s.fetchCount k2 }
  | .complete k r =>
    match s.inflight k with
    | none => s
    | some ws =>
      { s with
        inflight := fun k2 => if k2 = k then none else s.inflight k2,
        cache := fun k2 =>
          match r with
          | .ok v => if k2 = k then some v else s.cache k2
          | .error _ => s.cache k2,
        results := fun c => if c ∈ ws then some r else s.results c }

/-- Run the cache over a sequence of events. -/
def sfRun {κ ν : Type} [DecidableEq κ] (s : SFState κ ν)
    (events : List (SFEvent κ ν)) : SFState κ ν :=
  events.foldl sfStep s

/-! ## Concrete instances used by witnesses and counterexamples -/

/-- A pod without any owner reference, used to witness the filter. -/
def noOwnerPod : Pod :=
  ⟨"n".toList, "p".toList, "Running".toList, [], [], [], []⟩

/-- An environment whose digest fetches always fail. -/
def errEnv : Env := ⟨fun _ _ _ => .error ()⟩

/-- The container spec of the mismatching container of `mismatchPod`. -/
def witAppSpec : ContainerSpec :=
  ⟨"app".toList, "r.io/a:v1".toList, "Always".toList⟩

/-- The container status of the mismatching container of `mismatchPod`:
running digest `aaa`. -/
def witAppStatus : ContainerStatus :=
  ⟨"app".toList, "r.io/a:v1".toList, "sha256:aaa".toList⟩

/-- A Running, ReplicaSet-owned pod with two always-pull containers: `app`,
whose digest fetch succeeds and mismatches, and `sc`, whose digest fetch
fails. -/
def mismatchPod : Pod :=
  ⟨"n".toList, "p".toList, "Running".toList, [⟨"ReplicaSet".toList⟩],
    [witAppSpec, ⟨"sc".toList, "r.io/b:v1".toList, "Always".toList⟩],
    [witAppStatus, ⟨"sc".toList, "r.io/b:v1".toList, "sha256:ccc".toList⟩],
    ["sec".toList]⟩

/-- The environment of the C2 witness: the registry knows `r.io/a:v1` (latest
digest `bbb`); every other lookup — in particular the sibling's — fails. -/
def mismatchEnv : Env :=
  ⟨fun image _ _ => if image = "r.io/a:v1".toList then .ok "bbb".toList else .error ()⟩

/-- A parsed docker config JSON carrying a credential for host `reg.io`. -/
def cexAuthJson : Jsonv :=
  .obj [("auths".toList,
    .obj [("reg.io".toList,
      .obj [("username".toList, .str "u".toList),
        ("password".toList, .str "p".toList)])])]

/-- A secret whose `.dockerconfigjson` payload is `cexAuthJson`. -/
def cexMatchSecret : Secret := ⟨[(dockerConfigJsonKey, .wellFormed cexAuthJson)]⟩

/-- A secret whose parsed auths are empty (no host matches). -/
def witNoMatchSecret : Secret :=
  ⟨[(dockerConfigJsonKey, .wellFormed (.obj [("auths".toList, .obj [])]))]⟩

/-- The cluster of the C3 counterexample: fetching `ns/s2` succeeds with a
matching credential for `reg.io`; fetching `ns/s1` (and everything else)
fails. -/
def cexCluster : Cluster :=
  ⟨fun ns name =>
    if ns = "ns".toList && name = "s2".toList then some cexMatchSecret
    else none⟩

/-- The cluster of the C3 witness: `ns/s1` fetches fine but matches no host;
`ns/s2` fetches fine and matches `reg.io`. -/
def witCluster : Cluster :=
  ⟨fun ns name =>
    if ns = "ns".toList && name = "s1".toList then some witNoMatchSecret
    else if ns = "ns".toList && name = "s2".toList then some cexMatchSecret
    else none⟩

/-- The pull-secret association of repository `reg.io/app`: secrets `s1`,
`s2` in namespace `ns`. -/
def cexInfo : PullSecretInfo := ⟨"ns".toList, ["s1".toList, "s2".toList]⟩

/-- A side table holding only the association for `reg.io/app`. -/
def cexTable : PullSecretTable :=
  fun key => if key = "reg.io/app".toList then some cexInfo else none

/-- The matching credential of `cexAuthJson`. -/
def cexAuth : DockerAuth := ⟨"u".toList, "p".toList⟩

/-- A secret whose parsed auths mention only the host `other.io`. -/
def anonSecret : Secret :=
  ⟨[(dockerConfigJsonKey, .wellFormed (.obj [("auths".toList,
    .obj [("other.io".toList,
      .obj [("username".toList, .str "u".toList),
        ("password".toList, .str "p".toList)])])]))]⟩

/-- The cluster of the C7 witness: only `ns/s1` exists, with no matching
host for `reg.io`. -/
def anonCluster : Cluster :=
  ⟨fun ns name =>
    if ns = "ns".toList && name = "s1".toList then some anonSecret else none⟩

/-- An association pointing at the single secret `s1`. -/
def anonInfo : PullSecretInfo := ⟨"ns".toList, ["s1".toList]⟩

/-- A side table holding only the association for `reg.io/app` → `s1`. -/
def anonTable : PullSecretTable :=
  fun key => if key = "reg.io/app".toList then some anonInfo else none

/-- A side table with no associations at all. -/
def emptyTable : PullSecretTable := fun _ => none

/-- A tagless image reference whose registry host carries a port. -/
def portRef : ImageRef := ⟨"h:5".toList, "a".toList, none⟩

/-- A tagged image reference. -/
def taggedRef : ImageRef := ⟨"h".toList, "a".toList, some "v".toList⟩

/-- A secret with no `.dockerconfigjson` data key. -/
def c8NoKeySecret : Secret := ⟨[]⟩

/-- A secret whose `.dockerconfigjson` payload is not valid JSON. -/
def c8MalformedSecret : Secret := ⟨[(dockerConfigJsonKey, .malformed)]⟩

/-- A secret whose payload is well-formed JSON of the wrong shape (a
top-level string). -/
def c8WrongShapeSecret : Secret :=
  ⟨[(dockerConfigJsonKey, .wellFormed (.str "x".toList))]⟩

/-- The cluster of the C8 witness: four secrets in namespace `ns` covering
the no-key, malformed, good and wrong-shape cases. -/
def c8Cluster : Cluster :=
  ⟨fun ns name =>
    if ns = "ns".toList then
      if name = "a".toList then some c8NoKeySecret
      else if name = "b".toList then some c8MalformedSecret
      else if name = "c".toList then some cexMatchSecret
      else if name = "d".toList then some c8WrongShapeSecret
      else none
    else none⟩

/-! ## Lemmas about the string primitives -/

theorem splitOnAux_no_sep (c : Char) (l acc : Str) (h : c ∉ l) :
    splitOnAux c l acc = [acc.reverse ++ l] := by
  induction l generalizing acc with
  | nil => simp [splitOnAux]
  | cons x xs ih =>
    have hxc : x ≠ c := fun hx => h (hx ▸ List.mem_cons_self x xs)
    have hxs : c ∉ xs := fun hx => h (List.mem_cons_of_mem x hx)
    simp [splitOnAux, hxc, ih _ hxs]

theorem splitOnAux_append_sep (c : Char) (a b acc : Str) (ha : c ∉ a) :
    splitOnAux c (a ++ c :: b) acc = (acc.reverse ++ a) :: splitOnAux c b [] := by
  induction a generalizing acc with
  | nil => simp [splitOnAux]
  | cons x xs ih =>
    have hxc : x ≠ c := fun hx => ha (hx ▸ List.mem_cons_self x xs)
    have hxs : c ∉ xs := fun hx => ha (List.mem_cons_of_mem x hx)
    simp [splitOnAux, hxc, ih _ hxs]

/-- On a string of the form `a ++ ":" ++ b` where `a` contains no separator,
Go's split yields `a` followed by the split of `b`. -/
theorem splitOnChar_append_sep (c : Char) (a b : Str) (ha : c ∉ a) :
    splitOnChar c (a ++ c :: b) = a :: splitOnChar c b := by
  simp [splitOnChar, splitOnAux_append_sep c a b [] ha]

theorem splitOnChar_no_sep (c : Char) (l : Str) (h : c ∉ l) :
    splitOnChar c l = [l] := by
  simp [splitOnChar, splitOnAux_no_sep c l [] h]

theorem lastIndexOfChar_not_mem (c : Char) (l : Str) (h : c ∉ l) :
    lastIndexOfChar c l = none := by
  induction l with
  | nil => rfl
  | cons x xs ih =>
    have hxc : x ≠ c := fun hx => h (hx ▸ List.mem_cons_self x xs)
    have hxs : c ∉ xs := fun hx => h (List.mem_cons_of_mem x hx)
    simp [lastIndexOfChar, ih hxs, hxc]

/-- When the suffix after a separator has no further separator, the last
occurrence is exactly that separator. -/
theorem lastIndexOfChar_append_sep (c : Char) (r t : Str) (ht : c ∉ t) :
    lastIndexOfChar c (r ++ c :: t) = some r.length := by
  induction r with
  | nil => simp [lastIndexOfChar, lastIndexOfChar_not_mem c t ht]
  | cons x xs ih => simp [lastIndexOfChar, ih]

/-- Stripping the tag from `repo ++ ":" ++ tag` recovers `repo`, for any tag
free of `:` (every well-formed tag is). -/
theorem getImageWithoutTag_append_tag (repo t : Str) (ht : ':' ∉ t) :
    getImageWithoutTag (repo ++ ':' :: t) = repo := by
  simp [getImageWithoutTag, lastIndexOfChar_append_sep ':' repo t ht,
    List.take_left]

theorem getImageWithoutTag_no_colon (image : Str) (h : ':' ∉ image) :
    getImageWithoutTag image = image := by
  simp [getImageWithoutTag, lastIndexOfChar_not_mem ':' image h]

theorem splitOnAux_ne_nil (c : Char) (l acc : Str) : splitOnAux c l acc ≠ [] := by
  induction l generalizing acc with
  | nil => simp [splitOnAux]
  | cons x xs ih =>
    by_cases hx : x = c <;> simp [splitOnAux, hx, ih]

/-- A string containing `c` decomposes around the first occurrence of `c`. -/
theorem exists_first_sep (c : Char) (l : Str) (h : c ∈ l) :
    ∃ a b, l = a ++ c :: b ∧ c ∉ a := by
  induction l with
  | nil => cases h
  | cons x xs ih =>
    by_cases hx : x = c
    · exact ⟨[], xs, by simp [hx], by simp⟩
    · have hmem : c ∈ xs := by
        cases List.mem_cons.mp h with
        | inl he => exact absurd he.symm hx
        | inr hm => exact hm
      obtain ⟨a, b, hab, hna⟩ := ih hmem
      have hcx : c ≠ x := fun he => hx he.symm
      exact ⟨x :: a, b, by simp [hab], by simp [hna, hcx]⟩

/-- `findSome?` of a list all of whose elements are `none` is `none`. -/
theorem findSome?_of_all_none {α : Type} (l : List (Option α))
    (h : ∀ x ∈ l, x = none) : l.findSome? id = none := by
  induction l with
  | nil => rfl
  | cons x xs ih =>
    have hx := h x (List.mem_cons_self x xs)
    subst hx
    simpa [List.findSome?] using ih (fun y hy => h y (List.mem_cons_of_mem _ hy))

/-- `findSome?` of a list whose elements are all `none` or `some v`, with at
least one `some v`, is `some v` — whatever the order of the list. -/
theorem findSome?_of_unique_value {α : Type} (l : List (Option α)) (v : α)
    (hall : ∀ x ∈ l, x = none ∨ x = some v) (hmem : some v ∈ l) :
    l.findSome? id = some v := by
  induction l with
  | nil => cases hmem
  | cons x xs ih =>
    cases hall x (List.mem_cons_self x xs) with
    | inl hx =>
      subst hx
      have hmem2 : some v ∈ xs := by
        cases List.mem_cons.mp hmem with
        | inl he => cases he
        | inr hm => exact hm
      simpa [List.findSome?] using
        ih (fun y hy => hall y (List.mem_cons_of_mem _ hy)) hmem2
    | inr hx =>
      subst hx
      simp [List.findSome?]

theorem splitN2_append (c : Char) (a b : Str) (ha : c ∉ a) :
    splitN2 c (a ++ c :: b) = (a, some b) := by
  induction a with
  | nil => simp [splitN2]
  | cons x xs ih =>
    have hxc : x ≠ c := fun hx => ha (hx ▸ List.mem_cons_self x xs)
    have hxs : c ∉ xs := fun hx => ha (List.mem_cons_of_mem x hx)
    simp [splitN2, hxc, ih hxs]

/-! ## Claim theorems -/

/-- C9: two ImageReferences `repo:t1` and `repo:t2` with the same repository
and different tags (a well-formed tag never contains `:`) have the same
RepositoryKey — `getImageWithoutTag` truncates both at the tag separator —
so `GetImageDigest` stores and finds the same PullSecretAssociation for
both. -/
theorem repositoryKey_ignores_tag (repo t1 t2 : Str)
    (h1 : ':' ∉ t1) (h2 : ':' ∉ t2) :
    getImageWithoutTag (repo ++ ':' :: t1) = getImageWithoutTag (repo ++ ':' :: t2) ∧
    getImageWithoutTag (repo ++ ':' :: t1) = repo ∧
    ∀ (table : PullSecretTable) (ns : Str) (secrets : List Str),
      storePullSecrets table (repo ++ ':' :: t1) ns secrets =
        storePullSecrets table (repo ++ ':' :: t2) ns secrets := by
  have e1 := getImageWithoutTag_append_tag repo t1 h1
  have e2 := getImageWithoutTag_append_tag repo t2 h2
  refine ⟨e1.trans e2.symm, e1, ?_⟩
  intro table ns secrets
  simp [storePullSecrets, e1, e2]

theorem repositoryKey_ignores_tag_witness :
    ':' ∉ "v1".toList ∧ ':' ∉ "v2".toList ∧
    (getImageWithoutTag ("r.io/app".toList ++ ':' :: "v1".toList) =
        getImageWithoutTag ("r.io/app".toList ++ ':' :: "v2".toList) ∧
      getImageWithoutTag ("r.io/app".toList ++ ':' :: "v1".toList) = "r.io/app".toList ∧
      ∀ (table : PullSecretTable) (ns : Str) (secrets : List Str),
        storePullSecrets table ("r.io/app".toList ++ ':' :: "v1".toList) ns secrets =
          storePullSecrets table ("r.io/app".toList ++ ':' :: "v2".toList) ns secrets) :=
  ⟨by decide, by decide,
    repositoryKey_ignores_tag "r.io/app".toList "v1".toList "v2".toList
      (by decide) (by decide)⟩

/-- C6: for a container status image ID of the form
`<algorithm>:<hex-digest>` (neither part containing a further `:`), the
current-digest value the pipeline compares against the registry digest —
`strings.Split(status.ImageID, ":")[1]` — is exactly the substring after the
first `:`. -/
theorem currentHash_after_first_colon (algo hex : Str)
    (h1 : ':' ∉ algo) (h2 : ':' ∉ hex) :
    currentHashOf (algo ++ ':' :: hex) = some hex := by
  rw [currentHashOf, splitOnChar_append_sep ':' algo hex h1,
    splitOnChar_no_sep ':' hex h2]
  rfl

theorem currentHash_after_first_colon_witness :
    ':' ∉ "sha256".toList ∧ ':' ∉ "abc123".toList ∧
    currentHashOf ("sha256".toList ++ ':' :: "abc123".toList) = some "abc123".toList :=
  ⟨by decide, by decide,
    currentHash_after_first_colon "sha256".toList "abc123".toList
      (by decide) (by decide)⟩

/-- C10: extracting the current digest via `strings.Split(ImageID, ":")[1]`
is out of bounds — the Go code panics, the total embedding reaches its error
branch — when the image ID contains no `:` (for example the empty image ID);
when a successful digest fetch reaches the extraction with such an image ID,
the container goroutine hits the panic branch.  Under the precondition that
the image ID contains at least one `:`, the extraction is in bounds. -/
theorem imageID_split_bounds (bad good latest : Str)
    (hb : ':' ∉ bad) (hg : ':' ∈ good) :
    currentHashOf bad = none ∧
    containerCheck (.ok latest) bad = some .indexPanic ∧
    ∃ h, currentHashOf good = some h := by
  have h1 : currentHashOf bad = none := by
    rw [currentHashOf, splitOnChar_no_sep ':' bad hb]
    rfl
  refine ⟨h1, by simp [containerCheck, h1], ?_⟩
  obtain ⟨a, b, hab, hna⟩ := exists_first_sep ':' good hg
  subst hab
  rw [currentHashOf, splitOnChar_append_sep ':' a b hna]
  rcases hsp : splitOnChar ':' b with _ | ⟨y, ys⟩
  · rw [splitOnChar] at hsp
    exact absurd hsp (splitOnAux_ne_nil ':' b [])
  · exact ⟨y, by simp [hsp]⟩

/-- C5: a pod lacking an owner reference, or whose first owner reference has
a kind outside {ReplicaSet, DaemonSet, StatefulSet}, or none of whose
containers uses `imagePullPolicy: Always`, is skipped by the filter chain —
its task returns no decision and it never appears in the deletion
sequence. -/
theorem filtered_pod_never_deleted (env : Env) (pod : Pod)
    (h : pod.ownerReferences = [] ∨
      (∃ o os, pod.ownerReferences = o :: os ∧ allowedOwnerKinds o.kind = false) ∨
      alwaysPullNames pod = []) :
    processPod env pod = .ok none ∧ scanPods env [pod] = [] := by
  have hmain : processPod env pod = .ok none := by
    rw [processPod]
    by_cases hph : pod.phase = "Running".toList
    · rcases h with h | ⟨o, os, ho, hk⟩ | h
      · simp [hph, h]
      · simp [hph, ho, hk]
      · cases how : pod.ownerReferences with
        | nil => simp [hph, how]
        | cons o os =>
          by_cases hk : allowedOwnerKinds o.kind
          · simp [hph, how, hk, h]
          · simp [hph, how, hk]
    · rw [if_pos hph]
  exact ⟨hmain, by simp [scanPods, hmain]⟩

theorem filtered_pod_never_deleted_witness :
    (noOwnerPod.ownerReferences = [] ∨
      (∃ o os, noOwnerPod.ownerReferences = o :: os ∧ allowedOwnerKinds o.kind = false) ∨
      alwaysPullNames noOwnerPod = []) ∧
    (processPod errEnv noOwnerPod = .ok none ∧ scanPods errEnv [noOwnerPod] = []) :=
  ⟨Or.inl rfl, filtered_pod_never_deleted errEnv noOwnerPod (Or.inl rfl)⟩

/-- C2: a Running pod with an allowed owner whose always-pull container `st`
gets a successful digest fetch that disagrees with its current image-ID
digest is appended exactly once to the deletion sequence by its task — the
hypotheses say nothing about sibling container statuses except that none
reaches the index panic, so siblings whose digest lookups fail are covered;
and a per-container digest-fetch error alone yields no signal (it neither
fails the pod's task nor the run). -/
theorem mismatch_pod_appended_once (env : Env) (pod : Pod)
    (o : OwnerReference) (os : List OwnerReference)
    (c : ContainerSpec) (st : ContainerStatus) (latest cur : Str)
    (hph : pod.phase = "Running".toList)
    (how : pod.ownerReferences = o :: os)
    (hk : allowedOwnerKinds o.kind = true)
    (hc : c ∈ pod.containers)
    (hcp : c.imagePullPolicy = "Always".toList)
    (hcn : c.name = st.name)
    (hst : st ∈ pod.containerStatuses)
    (hfetch : env.getImageDigest st.image pod.ns pod.imagePullSecrets = .ok latest)
    (hcur : currentHashOf st.imageID = some cur)
    (hne : cur ≠ latest)
    (hnopanic : ∀ st2 ∈ pod.containerStatuses,
      containerCheck (env.getImageDigest st2.image pod.ns pod.imagePullSecrets)
        st2.imageID ≠ some .indexPanic) :
    processPod env pod = .ok (some ⟨pod.ns, pod.name⟩) ∧
    scanPods env [pod] = [⟨pod.ns, pod.name⟩] ∧
    ∀ (e : Unit) (iid : Str), containerCheck (.error e) iid = none := by
  have hmemName : st.name ∈ alwaysPullNames pod := by
    rw [alwaysPullNames]
    exact List.mem_map.mpr ⟨c, List.mem_filter.mpr ⟨hc, by simp [hcp]⟩, hcn⟩
  have hstf : st ∈ pod.containerStatuses.filter
      (fun st2 => (alwaysPullNames pod).contains st2.name) := by
    refine List.mem_filter.mpr ⟨hst, ?_⟩
    simpa [List.contains, List.elem_iff] using hmemName
  have hcheck : containerCheck
      (env.getImageDigest st.image pod.ns pod.imagePullSecrets) st.imageID =
      some .needUpdate := by
    simp [containerCheck, hfetch, hcur, hne]
  have hWait : fegWait
      ((pod.containerStatuses.filter
        (fun st2 => (alwaysPullNames pod).contains st2.name)).map
        (fun st2 =>
          containerCheck (env.getImageDigest st2.image pod.ns pod.imagePullSecrets)
            st2.imageID)) = some .needUpdate := by
    rw [fegWait]
    refine findSome?_of_unique_value _ CErr.needUpdate ?_ ?_
    · intro x hx
      obtain ⟨st2, hst2f, rfl⟩ := List.mem_map.mp hx
      have hst2 : st2 ∈ pod.containerStatuses := (List.mem_filter.mp hst2f).1
      rcases hval : containerCheck
          (env.getImageDigest st2.image pod.ns pod.imagePullSecrets) st2.imageID
        with _ | e
      · exact Or.inl rfl
      · cases e with
        | needUpdate => exact Or.inr rfl
        | indexPanic => exact absurd hval (hnopanic st2 hst2)
    · exact List.mem_map.mpr ⟨st, hstf, hcheck⟩
  have hne2 : (alwaysPullNames pod).isEmpty = false := by
    cases hap : alwaysPullNames pod with
    | nil => rw [hap] at hmemName; cases hmemName
    | cons x xs => rfl
  have htask : podTask env pod (alwaysPullNames pod) = .ok (some ⟨pod.ns, pod.name⟩) := by
    rw [podTask]
    simp only [hWait]
  have hmain : processPod env pod = .ok (some ⟨pod.ns, pod.name⟩) := by
    rw [processPod]
    simp [hph, how, hk, hne2, htask]
  exact ⟨hmain, by simp [scanPods, hmain], fun e iid => rfl⟩

theorem imageID_split_bounds_witness :
    ':' ∉ ([] : Str) ∧ ':' ∈ "sha256:abc".toList ∧
    (currentHashOf [] = none ∧
      containerCheck (.ok "d".toList) [] = some .indexPanic ∧
      ∃ h, currentHashOf "sha256:abc".toList = some h) :=
  ⟨by decide, by decide,
    imageID_split_bounds [] "sha256:abc".toList "d".toList (by decide) (by decide)⟩

theorem mismatch_pod_appended_once_witness :
    mismatchPod.phase = "Running".toList ∧
    mismatchPod.ownerReferences = ⟨"ReplicaSet".toList⟩ :: [] ∧
    allowedOwnerKinds (OwnerReference.mk "ReplicaSet".toList).kind = true ∧
    witAppSpec ∈ mismatchPod.containers ∧
    witAppSpec.imagePullPolicy = "Always".toList ∧
    witAppSpec.name = witAppStatus.name ∧
    witAppStatus ∈ mismatchPod.containerStatuses ∧
    mismatchEnv.getImageDigest witAppStatus.image mismatchPod.ns
      mismatchPod.imagePullSecrets = .ok "bbb".toList ∧
    currentHashOf witAppStatus.imageID = some "aaa".toList ∧
    "aaa".toList ≠ "bbb".toList ∧
    (∀ st2 ∈ mismatchPod.containerStatuses,
      containerCheck
        (mismatchEnv.getImageDigest st2.image mismatchPod.ns
          mismatchPod.imagePullSecrets) st2.imageID ≠ some .indexPanic) ∧
    (processPod mismatchEnv mismatchPod = .ok (some ⟨mismatchPod.ns, mismatchPod.name⟩) ∧
      scanPods mismatchEnv [mismatchPod] = [⟨mismatchPod.ns, mismatchPod.name⟩] ∧
      ∀ (e : Unit) (iid : Str), containerCheck (.error e) iid = none) :=
  ⟨rfl, rfl, by decide, by decide, rfl, rfl, by decide, by decide, by decide,
    by decide, by decide,
    mismatch_pod_appended_once mismatchEnv mismatchPod ⟨"ReplicaSet".toList⟩ []
      witAppSpec witAppStatus "bbb".toList "aaa".toList rfl rfl (by decide)
      (by decide) rfl rfl (by decide) (by decide) (by decide) (by decide)
      (by decide)⟩

/-- C7: `Resolve` returns anonymous with no error when no
PullSecretAssociation exists for the resource's repository string, and also
when an association exists but none of its secrets' parsed auths contain an
entry for the target registry host and no secret lookup failed — under every
completion order of the per-secret goroutines. -/
theorem resolve_anonymous_cases (cluster : Cluster)
    (table1 table2 : PullSecretTable) (repo registry : Str)
    (info : PullSecretInfo)
    (order1 order2 : List (Option GoroutineErr))
    (h1 : table1 repo = none)
    (h2 : table2 repo = some info)
    (hsec : ∀ s ∈ info.secrets, ∃ auths,
      fetchSecret cluster (info.ns ++ '/' :: s) = .ok auths ∧
      lookupHost auths registry = none)
    (hord : order2.Perm (secretOutcomes cluster registry info)) :
    resolveWithOrder table1 repo order1 = .ok .anonymous ∧
    resolveWithOrder table2 repo order2 = .ok .anonymous := by
  constructor
  · simp [resolveWithOrder, h1]
  · have hall : ∀ x ∈ order2, x = none := by
      intro x hx
      have hx2 : x ∈ secretOutcomes cluster registry info := hord.mem_iff.mp hx
      obtain ⟨sname, hs, rfl⟩ := List.mem_map.mp hx2
      obtain ⟨auths, ha, hl⟩ := hsec sname hs
      simp [secretOutcome, ha, hl]
    simp [resolveWithOrder, h2, findSome?_of_all_none order2 hall]

theorem resolve_anonymous_cases_witness :
    emptyTable "reg.io/app".toList = none ∧
    anonTable "reg.io/app".toList = some anonInfo ∧
    (∀ s ∈ anonInfo.secrets, ∃ auths,
      fetchSecret anonCluster (anonInfo.ns ++ '/' :: s) = .ok auths ∧
      lookupHost auths "r.io".toList = none) ∧
    (secretOutcomes anonCluster "r.io".toList anonInfo).Perm
      (secretOutcomes anonCluster "r.io".toList anonInfo) ∧
    (resolveWithOrder emptyTable "reg.io/app".toList [] = .ok .anonymous ∧
      resolveWithOrder anonTable "reg.io/app".toList
        (secretOutcomes anonCluster "r.io".toList anonInfo) = .ok .anonymous) :=
  ⟨rfl, by decide,
    fun s hs => by
      have hseq : s = "s1".toList := by
        rcases List.mem_cons.mp hs with h | h
        · exact h
        · cases h
      subst hseq
      exact ⟨[("other.io".toList, some ⟨"u".toList, "p".toList⟩)],
        by decide, by decide⟩,
    List.Perm.refl _,
    resolve_anonymous_cases anonCluster emptyTable anonTable "reg.io/app".toList
      "r.io".toList anonInfo [] (secretOutcomes anonCluster "r.io".toList anonInfo)
      rfl (by decide)
      (fun s hs => by
        have hseq : s = "s1".toList := by
          rcases List.mem_cons.mp hs with h | h
          · exact h
          · cases h
        subst hseq
        exact ⟨[("other.io".toList, some ⟨"u".toList, "p".toList⟩)],
          by decide, by decide⟩)
      (List.Perm.refl _)⟩

/-- C3 counterexample: repository `reg.io/app` is associated with secrets
`s1` and `s2`; exactly one of them (`s2`) contains an auth entry for the
target registry `reg.io` and its fetch succeeds, while `s1` fails to fetch.
Under the legitimate completion order in which `s1` finishes first (the
association order itself), `Resolve` propagates the fetch failure instead of
returning the basic credential — refuting the claim that the credential is
returned regardless of sibling fetch failures, and refuting that a failure
is propagated only when no secret matched. -/
theorem resolve_race_counterexample :
    cexTable "reg.io/app".toList = some cexInfo ∧
    secretOutcome cexCluster "reg.io".toList "ns".toList "s1".toList =
      some (.loadErr .getFailed) ∧
    secretOutcome cexCluster "reg.io".toList "ns".toList "s2".toList =
      some (.foundSecret (some cexAuth)) ∧
    resolveWithOrder cexTable "reg.io/app".toList
      (secretOutcomes cexCluster "reg.io".toList cexInfo) =
      .error (.loadErr .getFailed) ∧
    resolveWithOrder cexTable "reg.io/app".toList
      (secretOutcomes cexCluster "reg.io".toList cexInfo) ≠
      .ok (.basic cexAuth.username cexAuth.password) := by
  refine ⟨by decide, by decide, by decide, by decide, by decide⟩

/-- C3 amended: when exactly one associated secret's parsed auths contain an
entry for the target registry host, that secret's fetch succeeds, and every
other associated secret also fetches successfully (without matching),
`Resolve` returns the basic credential from the matching secret under every
completion order.  (As the counterexample shows, when a sibling secret fails
to fetch, the result depends on the completion order: the first non-nil
goroutine error wins, so the failure may be propagated even though a secret
matched.) -/
theorem resolve_single_match_no_failures (cluster : Cluster)
    (table : PullSecretTable) (repo registry : Str) (info : PullSecretInfo)
    (sStar : Str) (auths : DockerAuths) (auth : DockerAuth)
    (order : List (Option GoroutineErr))
    (htbl : table repo = some info)
    (hmem : sStar ∈ info.secrets)
    (hstar : fetchSecret cluster (info.ns ++ '/' :: sStar) = .ok auths)
    (hfound : lookupHost auths registry = some (some auth))
    (hothers : ∀ s ∈ info.secrets, s ≠ sStar →
      ∃ a2, fetchSecret cluster (info.ns ++ '/' :: s) = .ok a2 ∧
        lookupHost a2 registry = none)
    (hord : order.Perm (secretOutcomes cluster registry info)) :
    resolveWithOrder table repo order = .ok (.basic auth.username auth.password) := by
  have hstarOut : secretOutcome cluster registry info.ns sStar =
      some (.foundSecret (some auth)) := by
    simp [secretOutcome, hstar, hfound]
  have hall : ∀ x ∈ order, x = none ∨ x = some (.foundSecret (some auth)) := by
    intro x hx
    have hx2 : x ∈ secretOutcomes cluster registry info := hord.mem_iff.mp hx
    obtain ⟨sname, hs, rfl⟩ := List.mem_map.mp hx2
    by_cases hss : sname = sStar
    · subst hss
      exact Or.inr hstarOut
    · obtain ⟨a2, ha2, hl2⟩ := hothers sname hs hss
      exact Or.inl (by simp [secretOutcome, ha2, hl2])
  have hm : some (GoroutineErr.foundSecret (some auth)) ∈ order :=
    hord.mem_iff.mpr (List.mem_map.mpr ⟨sStar, hmem, hstarOut⟩)
  have hws := findSome?_of_unique_value order
    (GoroutineErr.foundSecret (some auth)) hall hm
  simp [resolveWithOrder, htbl, hws]

theorem resolve_single_match_no_failures_witness :
    cexTable "reg.io/app".toList = some cexInfo ∧
    "s2".toList ∈ cexInfo.secrets ∧
    fetchSecret witCluster (cexInfo.ns ++ '/' :: "s2".toList) =
      .ok [("reg.io".toList, some cexAuth)] ∧
    lookupHost [("reg.io".toList, some cexAuth)] "reg.io".toList =
      some (some cexAuth) ∧
    (∀ s ∈ cexInfo.secrets, s ≠ "s2".toList →
      ∃ a2, fetchSecret witCluster (cexInfo.ns ++ '/' :: s) = .ok a2 ∧
        lookupHost a2 "reg.io".toList = none) ∧
    (secretOutcomes witCluster "reg.io".toList cexInfo).Perm
      (secretOutcomes witCluster "reg.io".toList cexInfo) ∧
    resolveWithOrder cexTable "reg.io/app".toList
      (secretOutcomes witCluster "reg.io".toList cexInfo) =
      .ok (.basic cexAuth.username cexAuth.password) :=
  ⟨by decide, by decide, by decide, by decide,
    (fun s hs hne => by
      rcases List.mem_cons.mp hs with h | h
      · subst h
        exact ⟨[], by decide, by decide⟩
      · rcases List.mem_cons.mp h with h2 | h2
        · exact absurd h2 hne
        · cases h2),
    List.Perm.refl _,
    resolve_single_match_no_failures witCluster cexTable "reg.io/app".toList
      "reg.io".toList cexInfo "s2".toList [("reg.io".toList, some cexAuth)]
      cexAuth (secretOutcomes witCluster "reg.io".toList cexInfo)
      (by decide) (by decide) (by decide) (by decide)
      (fun s hs hne => by
        rcases List.mem_cons.mp hs with h | h
        · subst h
          exact ⟨[], by decide, by decide⟩
        · rcases List.mem_cons.mp h with h2 | h2
          · exact absurd h2 hne
          · cases h2)
      (List.Perm.refl _)⟩

/-- C4 counterexample: for the tagless image `h:5/a` (registry host with a
port), `GetImageDigest` stores the association under
`getImageWithoutTag "h:5/a" = "h"`, while the resolver's lookup key — the
resource's full repository string — is `h:5/a`; the keys differ, and a
lookup at the resolver's key finds nothing even right after the store. -/
theorem repoKey_lookup_counterexample :
    getImageWithoutTag (renderImage portRef) ≠ repoString portRef ∧
    storePullSecrets (fun _ => none) (renderImage portRef) "n".toList
      ["s".toList] (repoString portRef) = none := by
  refine ⟨by decide, by decide⟩

/-- C4 amended: the resolver's lookup key (the resource's full repository
string `host/path`) equals the RepositoryKey `GetImageDigest` stored —
so the resolver finds the caller's association — provided the image carries
an explicit tag (tags and repository paths never contain `:`), or carries no
tag and its host is port-free; for a tagless image whose registry host has a
port the two keys differ (see the counterexample). -/
theorem repoKey_lookup_matches (ref : ImageRef)
    (hpath : ':' ∉ ref.path)
    (h : (∃ t, ref.tag = some t ∧ ':' ∉ t) ∨ (ref.tag = none ∧ ':' ∉ ref.host)) :
    getImageWithoutTag (renderImage ref) = repoString ref ∧
    ∀ (table : PullSecretTable) (ns : Str) (secrets : List Str),
      secrets.isEmpty = false →
      storePullSecrets table (renderImage ref) ns secrets (repoString ref) =
        some ⟨ns, secrets⟩ := by
  have hkey : getImageWithoutTag (renderImage ref) = repoString ref := by
    rcases h with ⟨t, htag, hnt⟩ | ⟨htag, hnh⟩
    · have hren : renderImage ref = (ref.host ++ '/' :: ref.path) ++ ':' :: t := by
        simp [renderImage, htag]
      rw [hren, getImageWithoutTag_append_tag _ t hnt, repoString]
    · have hren : renderImage ref = ref.host ++ '/' :: ref.path := by
        simp [renderImage, htag]
      have hnc : ':' ∉ ref.host ++ '/' :: ref.path := by
        intro hmem
        rcases List.mem_append.mp hmem with hh | hp
        · exact hnh hh
        · rcases List.mem_cons.mp hp with he | hp2
          · exact absurd he (by decide)
          · exact hpath hp2
      rw [hren, getImageWithoutTag_no_colon _ hnc, repoString]
  refine ⟨hkey, ?_⟩
  intro table ns secrets hne
  simp [storePullSecrets, hne, hkey]

theorem repoKey_lookup_matches_witness :
    ':' ∉ taggedRef.path ∧
    ((∃ t, taggedRef.tag = some t ∧ ':' ∉ t) ∨
      (taggedRef.tag = none ∧ ':' ∉ taggedRef.host)) ∧
    (getImageWithoutTag (renderImage taggedRef) = repoString taggedRef ∧
      ∀ (table : PullSecretTable) (ns : Str) (secrets : List Str),
        secrets.isEmpty = false →
        storePullSecrets table (renderImage taggedRef) ns secrets
          (repoString taggedRef) = some ⟨ns, secrets⟩) :=
  ⟨by decide, Or.inl ⟨"v".toList, rfl, by decide⟩,
    repoKey_lookup_matches taggedRef (by decide)
      (Or.inl ⟨"v".toList, rfl, by decide⟩)⟩

/-- C8: the secret fetch path fails with the not-a-docker-config error when
the fetched secret lacks the `.dockerconfigjson` data key, fails with the
malformed-config error when the payload is not valid JSON or does not decode
as a docker config, and otherwise returns the host → {username, password}
mapping taken from the payload's top-level `auths` field. -/
theorem fetchSecret_error_and_auths (cluster : Cluster) (ns n1 n2 n3 n4 : Str)
    (sec1 sec2 sec3 sec4 : Secret) (v3 v4 : Jsonv) (cfg : DockerConfig)
    (hns : '/' ∉ ns)
    (hg1 : cluster.getSecret ns n1 = some sec1)
    (hk1 : lookupData sec1 dockerConfigJsonKey = none)
    (hg2 : cluster.getSecret ns n2 = some sec2)
    (hk2 : lookupData sec2 dockerConfigJsonKey = some .malformed)
    (hg3 : cluster.getSecret ns n3 = some sec3)
    (hk3 : lookupData sec3 dockerConfigJsonKey = some (.wellFormed v3))
    (hv3 : decodeDockerConfig v3 = .ok cfg)
    (hg4 : cluster.getSecret ns n4 = some sec4)
    (hk4 : lookupData sec4 dockerConfigJsonKey = some (.wellFormed v4))
    (hv4 : decodeDockerConfig v4 = .error ()) :
    fetchSecret cluster (ns ++ '/' :: n1) = .error .notDockerConfigSecret ∧
    fetchSecret cluster (ns ++ '/' :: n2) = .error .malformedDockerConfig ∧
    fetchSecret cluster (ns ++ '/' :: n4) = .error .malformedDockerConfig ∧
    fetchSecret cluster (ns ++ '/' :: n3) = .ok cfg.auths := by
  refine ⟨?_, ?_, ?_, ?_⟩ <;>
    simp [fetchSecret, splitN2_append '/' ns _ hns, hg1, hk1, hg2, hk2, hg3,
      hk3, hv3, hg4, hk4, hv4, parseDockerConfigJson]

theorem fetchSecret_error_and_auths_witness :
    '/' ∉ "ns".toList ∧
    c8Cluster.getSecret "ns".toList "a".toList = some c8NoKeySecret ∧
    lookupData c8NoKeySecret dockerConfigJsonKey = none ∧
    c8Cluster.getSecret "ns".toList "b".toList = some c8MalformedSecret ∧
    lookupData c8MalformedSecret dockerConfigJsonKey = some .malformed ∧
    c8Cluster.getSecret "ns".toList "c".toList = some cexMatchSecret ∧
    lookupData cexMatchSecret dockerConfigJsonKey = some (.wellFormed cexAuthJson) ∧
    decodeDockerConfig cexAuthJson = .ok ⟨[("reg.io".toList, some cexAuth)]⟩ ∧
    c8Cluster.getSecret "ns".toList "d".toList = some c8WrongShapeSecret ∧
    lookupData c8WrongShapeSecret dockerConfigJsonKey =
      some (.wellFormed (.str "x".toList)) ∧
    decodeDockerConfig (.str "x".toList) = .error () ∧
    (fetchSecret c8Cluster ("ns".toList ++ '/' :: "a".toList) =
        .error .notDockerConfigSecret ∧
      fetchSecret c8Cluster ("ns".toList ++ '/' :: "b".toList) =
        .error .malformedDockerConfig ∧
      fetchSecret c8Cluster ("ns".toList ++ '/' :: "d".toList) =
        .error .malformedDockerConfig ∧
      fetchSecret c8Cluster ("ns".toList ++ '/' :: "c".toList) =
        .ok (DockerConfig.mk [("reg.io".toList, some cexAuth)]).auths) :=
  ⟨by decide, rfl, rfl, rfl, rfl, rfl, rfl, by decide, rfl, rfl, rfl,
    fetchSecret_error_and_auths c8Cluster "ns".toList "a".toList "b".toList
      "c".toList "d".toList c8NoKeySecret c8MalformedSecret cexMatchSecret
      c8WrongShapeSecret cexAuthJson (.str "x".toList)
      ⟨[("reg.io".toList, some cexAuth)]⟩ (by decide) rfl rfl rfl rfl rfl rfl
      (by decide) rfl rfl rfl⟩

/-- Loads issued for key `K` while a fetch for `K` is in flight only join
the waiter list: the cache stays empty, the fetch count is untouched, the
delivered results are untouched, and every new caller (as well as every
previous waiter) ends up in the final waiter list. -/
theorem sfRun_loads_join {κ ν : Type} [DecidableEq κ] (K : κ) (cs : List Nat)
    (s : SFState κ ν) (ws : List Nat)
    (hc : s.cache K = none) (hin : s.inflight K = some ws) :
    ∃ ws2,
      (sfRun s (cs.map (SFEvent.load K))).cache K = none ∧
      (sfRun s (cs.map (SFEvent.load K))).inflight K = some ws2 ∧
      (∀ c ∈ ws, c ∈ ws2) ∧ (∀ c ∈ cs, c ∈ ws2) ∧
      (sfRun s (cs.map (SFEvent.load K))).fetchCount K = s.fetchCount K ∧
      (sfRun s (cs.map (SFEvent.load K))).results = s.results := by
  induction cs generalizing s ws with
  | nil =>
    exact ⟨ws, hc, hin, fun c h => h, fun c h => absurd h (List.not_mem_nil c),
      rfl, rfl⟩
  | cons c0 rest ih =>
    have hstep :
        sfStep s (SFEvent.load K c0) =
          { s with inflight :=
              fun k2 => if k2 = K then some (c0 :: ws) else s.inflight k2 } := by
      simp [sfStep, hc, hin]
    have hrun : sfRun s ((c0 :: rest).map (SFEvent.load K)) =
        sfRun (sfStep s (SFEvent.load K c0)) (rest.map (SFEvent.load K)) := rfl
    rw [hrun, hstep]
    obtain ⟨ws2, h1, h2, h3, h4, h5, h6⟩ :=
      ih { s with inflight :=
            fun k2 => if k2 = K then some (c0 :: ws) else s.inflight k2 }
        (c0 :: ws) hc (by simp)
    refine ⟨ws2, h1, h2, fun c hcw => h3 c (List.mem_cons_of_mem _ hcw),
      ?_, h5, h6⟩
    intro c hcr
    rcases List.mem_cons.mp hcr with rfl | hcr2
    · exact h3 c (List.mem_cons_self _ _)
    · exact h4 c hcr2

/-- C1: for every key `K`, when a nonempty batch of `Load(K)` calls is
issued before any fetch completes (modelled from the spec: the single-flight
cache of the external cache-loader dependency as an event system), exactly
one fetch for `K` is started, and once that single in-flight fetch
completes with result `r` — success or failure — every caller has received
exactly `r`. -/
theorem single_flight_load (κ ν : Type) [DecidableEq κ] (K : κ)
    (callers : List Nat) (r : Except Unit ν)
    (hne : callers ≠ []) :
    (sfRun (SFState.init κ ν)
      ((callers.map (SFEvent.load K)) ++ [SFEvent.complete K r])).fetchCount K = 1 ∧
    ∀ c ∈ callers,
      (sfRun (SFState.init κ ν)
        ((callers.map (SFEvent.load K)) ++ [SFEvent.complete K r])).results c =
        some r := by
  obtain ⟨c0, rest, rfl⟩ := List.exists_cons_of_ne_nil hne
  have hsplit : sfRun (SFState.init κ ν)
      (((c0 :: rest).map (SFEvent.load K)) ++ [SFEvent.complete K r]) =
      sfStep (sfRun (SFState.init κ ν) ((c0 :: rest).map (SFEvent.load K)))
        (SFEvent.complete K r) := by
    rw [sfRun, List.foldl_append]
    rfl
  have hstep1 :
      sfStep (SFState.init κ ν) (SFEvent.load K c0) =
        { SFState.init κ ν with
          inflight := fun k2 => if k2 = K then some [c0] else none,
          fetchCount := fun k2 => if k2 = K then 1 else 0 } := by
    simp [sfStep, SFState.init]
  have hrun1 : sfRun (SFState.init κ ν) ((c0 :: rest).map (SFEvent.load K)) =
      sfRun (sfStep (SFState.init κ ν) (SFEvent.load K c0))
        (rest.map (SFEvent.load K)) := rfl
  obtain ⟨ws2, h1, h2, h3, h4, h5, h6⟩ :=
    sfRun_loads_join K rest
      { SFState.init κ ν with
        inflight := fun k2 => if k2 = K then some [c0] else none,
        fetchCount := fun k2 => if k2 = K then 1 else 0 }
      [c0] rfl (by simp)
  rw [hstep1] at hrun1
  constructor
  · rw [hsplit, hrun1]
    have : (sfStep (sfRun
        { SFState.init κ ν with
          inflight := fun k2 => if k2 = K then some [c0] else none,
          fetchCount := fun k2 => if k2 = K then 1 else 0 }
        (rest.map (SFEvent.load K))) (SFEvent.complete K r)).fetchCount K =
        (sfRun
          { SFState.init κ ν with
            inflight := fun k2 => if k2 = K then some [c0] else none,
            fetchCount := fun k2 => if k2 = K then 1 else 0 }
          (rest.map (SFEvent.load K))).fetchCount K := by
      simp [sfStep, h2]
    rw [this, h5]
    simp
  · intro c hc
    rw [hsplit, hrun1]
    have hcw : c ∈ ws2 := by
      rcases List.mem_cons.mp hc with rfl | hc2
      · exact h3 c (List.mem_cons_self _ _)
      · exact h4 c hc2
    simp [sfStep, h2, hcw]

theorem single_flight_load_witness :
    ([1, 2, 3] : List Nat) ≠ [] ∧
    ((sfRun (SFState.init Nat Nat)
      ((([1, 2, 3] : List Nat).map (SFEvent.load 0)) ++
        [SFEvent.complete 0 (.ok 7)])).fetchCount 0 = 1 ∧
    ∀ c ∈ ([1, 2, 3] : List Nat),
      (sfRun (SFState.init Nat Nat)
        ((([1, 2, 3] : List Nat).map (SFEvent.load 0)) ++
          [SFEvent.complete 0 (.ok 7)])).results c = some (.ok 7)) :=
  ⟨by decide, single_flight_load Nat Nat 0 [1, 2, 3] (.ok 7) (by decide)⟩

end Podrefresh
